import Mathlib

/-!
Shallow embedding of the detection-and-throttling pipeline of
`main.py` and `database.py` (final-guardian-alert): dual-method motion
detection, face-embedding matching, per-kind cooldown gating, the shared
Firebase upload scheduler, and the single-slot frame buffer. Opaque
OpenCV / numpy image operations (contour extraction, embedding distances,
JPEG serialization) enter the model as inputs or function parameters; all
arithmetic is exact (over ℚ).
-/

/-- `self.min_motion_area = 200` (main.py line 75). -/
def minMotionArea : ℚ := 200

/-- `self.motion_sensitivity = 30` (main.py line 74): the binarization
threshold of the frame-difference method, applied inside the opaque
image step that yields the contour areas. -/
def motionSensitivity : ℚ := 30

/-- The aggregate-area threshold `1000` of main.py line 185. -/
def totalAreaThreshold : ℚ := 1000

/-- Loop body of main.py lines 178-182: a background-subtractor contour
of area strictly above `min_motion_area` adds its area to
`total_motion_area` and sets `motion_detected`. -/
def bgAccum (acc : Bool × ℚ) (a : ℚ) : Bool × ℚ :=
  if minMotionArea < a then (true, acc.2 + a) else acc

/-- Motion decision of `detect_faces_and_motion` (main.py lines 150-186).
`prevExists` is `self.previous_frame is not None`; `diffAreas` lists the
areas of the contours of the thresholded frame difference; `bgAreas` lists
the areas of the contours of the denoised background-subtractor mask.
Returns `(motion_detected, total_motion_area)`. -/
def detectMotion (prevExists : Bool) (diffAreas bgAreas : List ℚ) : Bool × ℚ :=
  let md0 := prevExists && diffAreas.any (fun a => decide (minMotionArea < a))
  let r := bgAreas.foldl bgAccum (md0, 0)
  (r.1 || decide (totalAreaThreshold < r.2), r.2)

/-- A persisted motion record: the fields of the payload built by
`capture_motion_photo` (main.py lines 216-249) that the claims concern. -/
structure MotionRecord where
  motion_area : ℚ
  confidence : ℚ
deriving DecidableEq

/-- `capture_motion_photo` (main.py lines 216-249): the record handed to
`save_motion_detection`, with
`confidence = min(100, max(0, (motion_area / 1000) * 100))` (line 232). -/
def capture_motion_photo (motion_area : ℚ) : MotionRecord :=
  ⟨motion_area, min 100 (max 0 (motion_area / 1000 * 100))⟩

/-- `tolerance=0.5` of the `compare_faces` call (main.py line 293). -/
def tolerance : ℚ := 1/2

/-- `face_recognition.compare_faces`: one boolean per gallery embedding,
true iff the embedding distance is at most the tolerance. `dists` lists
the distances of the observed face to the gallery embeddings, in gallery
order. -/
def compare_faces (dists : List ℚ) : List Bool :=
  dists.map (fun d => decide (d ≤ tolerance))

/-- `np.argmin`: index of the first minimum of a list (0 on the empty
list, which the callers never pass). -/
def argminIdx : List ℚ → ℕ
  | [] => 0
  | [_] => 0
  | a :: b :: rest =>
    let j := argminIdx (b :: rest)
    if a ≤ (b :: rest).getD j 0 then 0 else j + 1

/-- The label `name = "Unknown"` of main.py line 294. -/
def unknownLabel : String := "Unknown"

/-- Per-face classification of `recognize_faces` (main.py lines 290-308):
boolean match set at tolerance 0.5, `np.argmin` over all distances,
confidence `(1 - distance) * 100`, identity accepted only when
`confidence >= 60.0`. Returns `(name, confidence)`. -/
def recognizeOne (names : List String) (dists : List ℚ) : String × ℚ :=
  let ms := compare_faces dists
  if true ∈ ms then
    let best := argminIdx dists
    if ms.getD best false = true then
      let conf := (1 - dists.getD best 0) * 100
      if (60 : ℚ) ≤ conf then (names.getD best unknownLabel, conf)
      else (unknownLabel, conf)
    else (unknownLabel, 0)
  else (unknownLabel, 0)

/-- An annotated frame: opaque pixel payload plus the labels drawn onto
it so far. -/
structure AFrame where
  pixels : ℕ
  annots : List String
deriving DecidableEq

/-- `recognize_faces` (main.py lines 277-336): when recognition is
disabled the frame is returned unchanged at once (lines 279-280);
otherwise every detected face region is classified by `recognizeOne`,
annotated onto the frame, and proposed as a face event. `faces` holds,
per detected region, its distances to the gallery embeddings. -/
def recognize_faces (enabled : Bool) (names : List String) (frame : AFrame)
    (faces : List (List ℚ)) : AFrame × List (String × ℚ) :=
  if enabled then
    faces.foldl
      (fun acc dists =>
        let r := recognizeOne names dists
        (⟨acc.1.pixels, acc.1.annots ++ [r.1]⟩, acc.2 ++ [r]))
      (frame, [])
  else (frame, [])

/-- Outcome of opening `encodings.pickle` (main.py lines 259-275):
the file is absent, unpickling raises, or it yields an encodings list
(opaque embeddings, here ℕ) and a names list. -/
inductive LoadInput where
  | fileMissing
  | loadError
  | fileData (encodings : List ℕ) (names : List String)
deriving DecidableEq

/-- The face-recognition fields of the detector set up in `__init__` and
`load_face_encodings` (main.py lines 88-94, 259-275). -/
structure FaceGalleryState where
  known_encodings : List ℕ
  known_names : List String
  face_recognition_enabled : Bool
deriving DecidableEq

/-- `load_face_encodings` (main.py lines 259-275): starting from the
constructor state (`[]`, `[]`, disabled), a missing file or a load error
leaves that state untouched and returns false; loaded data installs both
lists and enables recognition iff at least one encoding was loaded. -/
def load_face_encodings : LoadInput → FaceGalleryState × Bool
  | .fileMissing => (⟨[], [], false⟩, false)
  | .loadError => (⟨[], [], false⟩, false)
  | .fileData encs nms => (⟨encs, nms, decide (0 < encs.length)⟩, true)

/-- One producer-loop tick (main.py `process_frames`, lines 101-125):
the motion decision, then face recognition on the same frame. -/
def processTick (enabled : Bool) (names : List String) (prevExists : Bool)
    (diffAreas bgAreas : List ℚ) (frame : AFrame) (faces : List (List ℚ)) :
    (Bool × ℚ) × AFrame × List (String × ℚ) :=
  (detectMotion prevExists diffAreas bgAreas,
   recognize_faces enabled names frame faces)

/-- `FIREBASE_UPLOAD_DELAY = 30` (database.py line 31). -/
def FIREBASE_UPLOAD_DELAY : ℚ := 30

/-- Shared scheduler state: `last_firebase_upload_time` (database.py
line 30, initially 0) plus the scheduled execution times of the
outstanding deferred upload threads, oldest first. -/
structure SchedState where
  last : ℚ
  pending : List ℚ
deriving DecidableEq

/-- Return value of `save_motion_detection` / `save_face_detection`:
the stored document (abstracted to its upload time), `None` after a
failed immediate upload, or the scheduled-status dict with its delay. -/
inductive SaveResult where
  | doc (t : ℚ)
  | failed
  | scheduled (delay : ℚ)
deriving DecidableEq

/-- One call to `save_motion_detection` / `save_face_detection`
(database.py lines 66-97 and 132-163) at time `t`; `ok` tells whether
the inner Firestore write would succeed. Immediate branch: perform the
upload now and advance `last_firebase_upload_time` to `t` (even when the
write failed). Deferred branch: append a thread scheduled to wake at
`t + remaining` and report the scheduled status. The third component
lists the uploads performed by this call as (time, success). -/
def submit (s : SchedState) (t : ℚ) (ok : Bool) :
    SchedState × SaveResult × List (ℚ × Bool) :=
  if FIREBASE_UPLOAD_DELAY ≤ t - s.last then
    (⟨t, s.pending⟩, (if ok then .doc t else .failed), [(t, ok)])
  else
    (⟨s.last, s.pending ++ [t + (FIREBASE_UPLOAD_DELAY - (t - s.last))]⟩,
     .scheduled (FIREBASE_UPLOAD_DELAY - (t - s.last)), [])

/-- `scheduled_upload` (database.py lines 81-91 and 147-157): the oldest
outstanding deferred thread wakes at time `now`, performs the upload
(succeeding iff `ok`) and sets `last_firebase_upload_time` to its own
execution time. -/
def fireTask (s : SchedState) (now : ℚ) (ok : Bool) :
    SchedState × List (ℚ × Bool) :=
  match s.pending with
  | [] => (s, [])
  | _ :: rest => (⟨now, rest⟩, [(now, ok)])

/-- A timed event against the scheduler: a submission, or a deferred
thread completing its sleep. -/
inductive Evt where
  | submit (t : ℚ) (ok : Bool)
  | fire (t : ℚ) (ok : Bool)
deriving DecidableEq

def schedStep (st : SchedState × List (ℚ × Bool)) :
    Evt → SchedState × List (ℚ × Bool)
  | .submit t ok => ((submit st.1 t ok).1, st.2 ++ (submit st.1 t ok).2.2)
  | .fire t ok => ((fireTask st.1 t ok).1, st.2 ++ (fireTask st.1 t ok).2)

/-- Run a trace from the module-initial state
(`last_firebase_upload_time = 0`, no outstanding threads), collecting
every performed upload as (time, success). -/
def runSched (evts : List Evt) : SchedState × List (ℚ × Bool) :=
  evts.foldl schedStep (⟨0, []⟩, [])

/-- Real-time admissibility of a trace: event times are nondecreasing
and a deferred thread wakes no earlier than its scheduled time. -/
def validFrom : SchedState → ℚ → List Evt → Bool
  | _, _, [] => true
  | s, tp, .submit t ok :: rest =>
    decide (tp ≤ t) && validFrom (submit s t ok).1 t rest
  | s, tp, .fire t ok :: rest =>
    match s.pending with
    | [] => false
    | ft :: _ =>
      decide (tp ≤ t) && decide (ft ≤ t) && validFrom (fireTask s t ok).1 t rest

def validTrace (evts : List Evt) : Bool := validFrom ⟨0, []⟩ 0 evts

/-- Trace realizing database.py's race: an accepted upload at t=100
closes the gate; submissions at t=105 and t=106 each compute their
remaining delay against the same stale timestamp and schedule threads
that both wake at t=130. -/
def staleDelayTrace : List Evt :=
  [.submit 100 true, .submit 105 true, .submit 106 true,
   .fire 130 true, .fire 130 true]

/-- `get_firebase_upload_status` (database.py lines 258-272), a pure
read of the shared timestamp. -/
def remaining_delay (last now : ℚ) : ℚ :=
  max 0 (FIREBASE_UPLOAD_DELAY - (now - last))

def can_upload_now (last now : ℚ) : Bool :=
  decide (remaining_delay last now ≤ 0)

/-- The per-kind emission gate of `detect_faces_and_motion`
(main.py lines 194-205) and of `recognize_faces` (lines 323-334): the
kind's event is persisted, and its per-kind timer advanced, only when
the per-kind cooldown has strictly elapsed and the shared Firebase gate
is open; a tick that passes only the cooldown leaves the timer
untouched. Returns (new per-kind timestamp, emitted?). -/
def kindGateTick (lastEmit cooldown now : ℚ) (firebaseReady : Bool) :
    ℚ × Bool :=
  if cooldown < now - lastEmit then
    if firebaseReady then (now, true) else (lastEmit, false)
  else (lastEmit, false)

/-- Operations on the single-slot frame cache `self.current_frame`
(main.py lines 78, 123-125, 383-390). -/
inductive BufOp where
  | write (f : ℕ)
  | read
deriving DecidableEq

/-- A write (main.py line 125) fully replaces the slot; a read leaves it
unchanged. -/
def applyOp : Option ℕ → BufOp → Option ℕ
  | _, .write f => some f
  | s, .read => s

/-- Slot contents after a history of operations, starting empty. -/
def runBuf (ops : List BufOp) : Option ℕ := ops.foldl applyOp none

/-- `get_frame` (main.py lines 383-390): serialize the current frame
when one exists, else return `None`. `encode` is the opaque JPEG
encoder. -/
def get_frame (encode : ℕ → List ℕ) (s : Option ℕ) : Option (List ℕ) :=
  s.map encode

def isRead : BufOp → Bool
  | .write _ => false
  | .read => true

def noWrite (ops : List BufOp) : Bool := ops.all isRead

theorem bgFold_eq (b : List ℚ) (m : Bool) (t : ℚ) :
    b.foldl bgAccum (m, t) =
      (m || b.any (fun a => decide (minMotionArea < a)),
       t + (b.filter (fun a => decide (minMotionArea < a))).sum) := by
  induction b generalizing m t with
  | nil => simp
  | cons a rest ih =>
    by_cases h : minMotionArea < a
    · simp [bgAccum, h, ih, add_assoc]
    · simp [bgAccum, h, ih]

theorem detectMotion_total (p : Bool) (d b : List ℚ) :
    (detectMotion p d b).2 =
      (b.filter (fun a => decide (minMotionArea < a))).sum := by
  simp [detectMotion, bgFold_eq]

theorem detectMotion_flag (p : Bool) (d b : List ℚ) :
    (detectMotion p d b).1 = true ↔
      ((p = true ∧ ∃ a ∈ d, (200 : ℚ) < a) ∨
       (∃ a ∈ b, (200 : ℚ) < a) ∨
       (1000 : ℚ) < (b.filter (fun a => decide ((200 : ℚ) < a))).sum) := by
  simp only [detectMotion, bgFold_eq, minMotionArea, totalAreaThreshold,
    zero_add, Bool.or_eq_true, Bool.and_eq_true, List.any_eq_true,
    decide_eq_true_iff]
  exact or_assoc

/-- C1: on every tick, `motion_detected` is true iff a previous frame
exists and some single frame-difference contour area strictly exceeds
`min_motion_area` (200), or some background-model contour area strictly
exceeds `min_motion_area`, or the sum of the background-model contour
areas each strictly exceeding `min_motion_area` strictly exceeds 1000. -/
theorem motion_flag_iff (p : Bool) (d b : List ℚ) :
    (detectMotion p d b).1 = true ↔
      ((p = true ∧ ∃ a ∈ d, (200 : ℚ) < a) ∨
       (∃ a ∈ b, (200 : ℚ) < a) ∨
       (1000 : ℚ) < (b.filter (fun a => decide ((200 : ℚ) < a))).sum) :=
  detectMotion_flag p d b

/-- C7: the confidence stored by `capture_motion_photo` is the linear
mapping of the summed motion area clamped to `[0,100]`, equal to
`min 100 (max 0 (area / 10))`; an area of 1000 maps to exactly 100, an
area of 0 maps to 0, and the stored value never leaves `[0,100]`. -/
theorem motion_confidence_clamp (area : ℚ) :
    (capture_motion_photo area).confidence = min 100 (max 0 (area / 10)) ∧
    (capture_motion_photo 1000).confidence = 100 ∧
    (capture_motion_photo 0).confidence = 0 ∧
    0 ≤ (capture_motion_photo area).confidence ∧
    (capture_motion_photo area).confidence ≤ 100 := by
  have harea : area / 1000 * 100 = area / 10 := by ring
  refine ⟨by simp [capture_motion_photo, harea], by norm_num [capture_motion_photo],
    by norm_num [capture_motion_photo], ?_, ?_⟩
  · exact le_min (by norm_num) (le_max_left _ _)
  · exact min_le_left _ _

theorem argminIdx_lt_length : ∀ l : List ℚ, l ≠ [] → argminIdx l < l.length
  | [], h => absurd rfl h
  | [_], _ => by simp [argminIdx]
  | a :: b :: rest, _ => by
    have ih := argminIdx_lt_length (b :: rest) (by simp)
    simp only [argminIdx, List.length_cons]
    by_cases h : a ≤ (b :: rest).getD (argminIdx (b :: rest)) 0
    · rw [if_pos h]
      omega
    · rw [if_neg h]
      simp only [List.length_cons] at ih
      omega

theorem argminIdx_min : ∀ (l : List ℚ), ∀ x ∈ l, l.getD (argminIdx l) 0 ≤ x
  | [] => by simp
  | [y] => by
    intro x hx
    rcases List.mem_singleton.mp hx with rfl
    simp [argminIdx]
  | a :: b :: rest => by
    intro x hx
    have ih := argminIdx_min (b :: rest)
    simp only [argminIdx]
    by_cases h : a ≤ (b :: rest).getD (argminIdx (b :: rest)) 0
    · rw [if_pos h]
      rcases List.mem_cons.mp hx with rfl | hx2
      · simp
      · simpa using le_trans h (ih x hx2)
    · rw [if_neg h]
      rcases List.mem_cons.mp hx with rfl | hx2
      · simpa using le_of_lt (lt_of_not_le h)
      · simpa using ih x hx2

theorem getD_compare_faces (l : List ℚ) (i : ℕ) (h : i < l.length) :
    (compare_faces l).getD i false = decide (l.getD i 0 ≤ tolerance) := by
  unfold compare_faces
  rw [List.getD_eq_getElem _ _ (by simpa using h), List.getD_eq_getElem _ _ h,
    List.getElem_map]

/-- C2: against a non-empty gallery, each gallery entry is a match iff
its embedding distance is at most the tolerance 0.5; whenever some match
exists, the selected entry has minimum distance among matching entries
(and is itself a match), the confidence is `(1 - distance) * 100`, and
the identity is accepted exactly when the confidence is at least 60.0
(boundary inclusive); with no match at all the region is labeled
Unknown. -/
theorem face_match_selection (names : List String) (dists : List ℚ) :
    (∀ i, i < dists.length →
      (compare_faces dists).getD i false = decide (dists.getD i 0 ≤ 1/2)) ∧
    ((∃ d ∈ dists, d ≤ 1/2) →
      dists.getD (argminIdx dists) 0 ≤ 1/2 ∧
      (∀ d ∈ dists, d ≤ 1/2 → dists.getD (argminIdx dists) 0 ≤ d) ∧
      recognizeOne names dists =
        (if (60 : ℚ) ≤ (1 - dists.getD (argminIdx dists) 0) * 100
          then names.getD (argminIdx dists) unknownLabel else unknownLabel,
         (1 - dists.getD (argminIdx dists) 0) * 100)) ∧
    ((∀ d ∈ dists, ¬ d ≤ 1/2) →
      recognizeOne names dists = (unknownLabel, 0)) := by
  have htol : tolerance = 1/2 := rfl
  refine ⟨fun i hi => by rw [getD_compare_faces dists i hi, htol], ?_, ?_⟩
  · rintro ⟨d0, hd0, hle⟩
    have hmin : ∀ x ∈ dists, dists.getD (argminIdx dists) 0 ≤ x :=
      argminIdx_min dists
    have h1 : dists.getD (argminIdx dists) 0 ≤ 1/2 :=
      le_trans (hmin d0 hd0) hle
    have hlt : argminIdx dists < dists.length :=
      argminIdx_lt_length dists (by rintro rfl; simp at hd0)
    have hmem : true ∈ compare_faces dists := by
      simp only [compare_faces, List.mem_map]
      exact ⟨d0, hd0, by simpa [htol] using hle⟩
    have hbest : (compare_faces dists).getD (argminIdx dists) false = true := by
      rw [getD_compare_faces dists _ hlt, htol]
      exact decide_eq_true h1
    refine ⟨h1, fun d hd _ => hmin d hd, ?_⟩
    simp only [recognizeOne]
    rw [if_pos hmem, if_pos hbest]
    split <;> rfl
  · intro hno
    have hnotmem : true ∉ compare_faces dists := by
      simp only [compare_faces, List.mem_map]
      rintro ⟨d, hd, hdec⟩
      exact hno d hd (by simpa [htol] using hdec)
    simp only [recognizeOne]
    rw [if_neg hnotmem]

theorem face_match_selection_w :
    recognizeOne ["alice"] [2/5] = ("alice", 60) := by
  have h := (face_match_selection ["alice"] [2/5]).2.1
    ⟨2/5, by simp, by norm_num⟩
  rw [h.2.2]
  norm_num [argminIdx]

/-- C6: an empty gallery (no encodings loaded, or the encodings file is
absent or malformed) leaves face recognition disabled, in which case
`recognize_faces` is a pass-through returning the frame unchanged with
no annotation and proposing no face event (so nothing is persisted),
while the motion decision of the tick is unaffected. -/
theorem empty_gallery_passthrough (inp : LoadInput) (names : List String)
    (frame : AFrame) (faces : List (List ℚ)) (prevExists en : Bool)
    (diffAreas bgAreas : List ℚ) :
    (load_face_encodings .fileMissing = (⟨[], [], false⟩, false)) ∧
    (load_face_encodings .loadError = (⟨[], [], false⟩, false)) ∧
    ((load_face_encodings inp).1.known_encodings = [] →
      (load_face_encodings inp).1.face_recognition_enabled = false) ∧
    (recognize_faces false names frame faces = (frame, [])) ∧
    ((processTick false names prevExists diffAreas bgAreas frame faces).1 =
     (processTick en names prevExists diffAreas bgAreas frame faces).1) := by
  refine ⟨rfl, rfl, ?_, rfl, rfl⟩
  cases inp with
  | fileMissing => intro _; rfl
  | loadError => intro _; rfl
  | fileData encs nms =>
    intro h
    have hencs : encs = [] := h
    subst hencs
    rfl

theorem empty_gallery_passthrough_w :
    (load_face_encodings (.fileData [] ["bob"])).1.face_recognition_enabled
        = false ∧
    recognize_faces false ["bob"] ⟨7, []⟩ [[1/4]] = (⟨7, []⟩, []) :=
  ⟨(empty_gallery_passthrough (.fileData [] ["bob"]) ["bob"] ⟨7, []⟩ [[1/4]]
      false false [] []).2.2.1 rfl,
   (empty_gallery_passthrough (.fileData [] ["bob"]) ["bob"] ⟨7, []⟩ [[1/4]]
      false false [] []).2.2.2.1⟩

/-- C10: on a tick where motion is flagged solely by the frame-difference
method (a previous frame exists and some frame-difference contour exceeds
`min_motion_area`, but no background-model contour does), the summed
background-model motion area is 0, so the motion record captured on that
tick carries `motion_area` 0 and confidence exactly 0. -/
theorem diff_only_zero_area (p : Bool) (d b : List ℚ)
    (hp : p = true) (hd : ∃ a ∈ d, (200 : ℚ) < a)
    (hb : ∀ a ∈ b, a ≤ 200) :
    (detectMotion p d b).1 = true ∧
    (detectMotion p d b).2 = 0 ∧
    (capture_motion_photo (detectMotion p d b).2).motion_area = 0 ∧
    (capture_motion_photo (detectMotion p d b).2).confidence = 0 := by
  have h2 : (detectMotion p d b).2 = 0 := by
    rw [detectMotion_total]
    have hfil : b.filter (fun a => decide (minMotionArea < a)) = [] := by
      rw [List.filter_eq_nil_iff]
      intro a ha
      simpa [minMotionArea] using hb a ha
    rw [hfil, List.sum_nil]
  refine ⟨?_, h2, ?_, ?_⟩
  · rw [detectMotion_flag]
    exact Or.inl ⟨hp, hd⟩
  · rw [h2]; rfl
  · rw [h2]; norm_num [capture_motion_photo]

theorem diff_only_zero_area_w :
    (detectMotion true [300] [50, 200]).1 = true ∧
    (capture_motion_photo (detectMotion true [300] [50, 200]).2).confidence
      = 0 := by
  have h := diff_only_zero_area true [300] [50, 200] rfl
    ⟨300, by simp, by norm_num⟩ (by decide)
  exact ⟨h.1, h.2.2.2⟩

/-- C4: a submission at time `t` with elapsed time since the shared
timestamp at least 30 s performs the upload immediately, sets the shared
timestamp to `t`, and returns the upload result; otherwise it performs
nothing now, reports the scheduled status with remaining delay
`30 - elapsed`, and appends a deferred thread that wakes at
`t + remaining`; a deferred thread performs its upload at its actual
execution time and sets the shared timestamp to that time, not to the
original submission time. -/
theorem submit_branches (s : SchedState) (t now : ℚ) (ok : Bool)
    (ft : ℚ) (rest : List ℚ) :
    ((30 : ℚ) ≤ t - s.last →
      submit s t ok = (⟨t, s.pending⟩,
        (if ok then SaveResult.doc t else SaveResult.failed), [(t, ok)])) ∧
    (t - s.last < 30 →
      submit s t ok = (⟨s.last, s.pending ++ [t + (30 - (t - s.last))]⟩,
        SaveResult.scheduled (30 - (t - s.last)), [])) ∧
    (s.pending = ft :: rest →
      fireTask s now ok = (⟨now, rest⟩, [(now, ok)])) := by
  refine ⟨fun h => ?_, fun h => ?_, fun h => ?_⟩
  · simp [submit, FIREBASE_UPLOAD_DELAY, h]
  · have h2 : ¬ (30 : ℚ) ≤ t - s.last := not_le.mpr h
    simp [submit, FIREBASE_UPLOAD_DELAY, h2]
  · simp [fireTask, h]

theorem submit_branches_w :
    submit ⟨0, []⟩ 100 true = (⟨100, []⟩, SaveResult.doc 100, [(100, true)]) ∧
    submit ⟨100, []⟩ 110 false =
      (⟨100, [130]⟩, SaveResult.scheduled 20, []) ∧
    fireTask ⟨100, [130]⟩ 130 true = (⟨130, []⟩, [(130, true)]) := by
  refine ⟨?_, ?_, ?_⟩
  · have h := (submit_branches ⟨0, []⟩ 100 0 true 0 []).1
      (show (30 : ℚ) ≤ 100 - 0 by norm_num)
    simpa using h
  · have h := (submit_branches ⟨100, []⟩ 110 0 false 0 []).2.1
      (show (110 : ℚ) - 100 < 30 by norm_num)
    norm_num at h
    exact h
  · exact (submit_branches ⟨100, [130]⟩ 0 130 true 130 []).2.2 rfl

/-- C3 (violation witness): the code does not keep accepted uploads of
the two kinds at least 30 s apart. On the admissible trace
`staleDelayTrace`, two concurrently scheduled deferred threads both
compute their delay against the same stale shared timestamp and both
perform their upload at t=130, zero seconds apart. -/
theorem upload_spacing_violated :
    validTrace staleDelayTrace = true ∧
    (runSched staleDelayTrace).2 = [(100, true), (130, true), (130, true)] ∧
    ¬ List.Pairwise (fun u v : ℚ × Bool => 30 ≤ v.1 - u.1)
        (runSched staleDelayTrace).2 := by
  have hrun : (runSched staleDelayTrace).2
      = [(100, true), (130, true), (130, true)] := by
    norm_num [runSched, staleDelayTrace, schedStep, submit, fireTask,
      FIREBASE_UPLOAD_DELAY]
  refine ⟨?_, hrun, ?_⟩
  · norm_num [validTrace, validFrom, staleDelayTrace, submit, fireTask,
      FIREBASE_UPLOAD_DELAY]
  · intro h
    rw [hrun] at h
    have h2 := (List.pairwise_cons.mp
      (List.pairwise_cons.mp h).2).1 (130, true) (by simp)
    norm_num at h2

/-- C9: an immediate-path submission whose Firestore write fails still
advances the shared timestamp to the submission time and returns `None`,
so every event of either kind submitted within the next 30 s is
deferred although nothing was persisted; a deferred thread whose write
fails likewise sets the shared timestamp to its execution time. -/
theorem failed_upload_closes_gate (s : SchedState) (t t2 now ft : ℚ)
    (rest : List ℚ) (ok2 : Bool) (h : (30 : ℚ) ≤ t - s.last) :
    (submit s t false).1.last = t ∧
    (submit s t false).2.1 = SaveResult.failed ∧
    (submit s t false).2.2 = [(t, false)] ∧
    (t2 - t < 30 →
      (submit (submit s t false).1 t2 ok2).2.1 =
        SaveResult.scheduled (30 - (t2 - t))) ∧
    (s.pending = ft :: rest →
      (fireTask s now false).1.last = now ∧
      (fireTask s now false).2 = [(now, false)]) := by
  have he : submit s t false = (⟨t, s.pending⟩, SaveResult.failed, [(t, false)]) := by
    simp [submit, FIREBASE_UPLOAD_DELAY, h]
  refine ⟨by rw [he], by rw [he], by rw [he], fun h2 => ?_, fun hp => ?_⟩
  · rw [he]
    have h3 : ¬ (30 : ℚ) ≤ t2 - t := not_le.mpr h2
    simp [submit, FIREBASE_UPLOAD_DELAY, h3]
  · simp [fireTask, hp]

theorem failed_upload_closes_gate_w :
    (submit ⟨0, []⟩ 40 false).1.last = 40 ∧
    (submit ⟨0, []⟩ 40 false).2.1 = SaveResult.failed ∧
    (submit (submit ⟨0, []⟩ 40 false).1 50 true).2.1 =
      SaveResult.scheduled 20 := by
  have h := failed_upload_closes_gate ⟨0, []⟩ 40 50 0 0 [] true
    (show (30 : ℚ) ≤ 40 - 0 by norm_num)
  refine ⟨h.1, h.2.1, ?_⟩
  have h4 := h.2.2.2.1 (show (50 : ℚ) - 40 < 30 by norm_num)
  norm_num at h4
  exact h4

/-- C5: on a tick where the per-kind cooldown has strictly elapsed but
the shared Firebase gate is closed, the per-kind last-emission timestamp
is left unchanged and nothing is emitted, so on any later tick with the
gate open the same detection condition succeeds and is emitted. -/
theorem kind_cooldown_retry (lastEmit cooldown lastUp now lastUp2 now2 : ℚ)
    (h1 : cooldown < now - lastEmit)
    (h2 : can_upload_now lastUp now = false)
    (h3 : now ≤ now2)
    (h4 : can_upload_now lastUp2 now2 = true) :
    kindGateTick lastEmit cooldown now (can_upload_now lastUp now) =
      (lastEmit, false) ∧
    kindGateTick lastEmit cooldown now2 (can_upload_now lastUp2 now2) =
      (now2, true) := by
  constructor
  · rw [h2]
    simp [kindGateTick, h1]
  · rw [h4]
    have h5 : cooldown < now2 - lastEmit := by linarith
    simp [kindGateTick, h5]

theorem kind_cooldown_retry_w :
    kindGateTick 0 30 50 (can_upload_now 40 50) = (0, false) ∧
    kindGateTick 0 30 100 (can_upload_now 40 100) = (100, true) :=
  kind_cooldown_retry 0 30 40 50 40 100 (by norm_num)
    (by simp only [can_upload_now, remaining_delay, FIREBASE_UPLOAD_DELAY,
      decide_eq_false_iff_not]; norm_num)
    (by norm_num)
    (by simp only [can_upload_now, remaining_delay, FIREBASE_UPLOAD_DELAY,
      decide_eq_true_eq]; norm_num)

theorem foldl_noWrite (ops : List BufOp) (h : noWrite ops = true)
    (s : Option ℕ) : ops.foldl applyOp s = s := by
  induction ops generalizing s with
  | nil => rfl
  | cons o rest ih =>
    cases o with
    | write f => simp [noWrite, isRead] at h
    | read =>
      have h2 : noWrite rest = true := by simpa [noWrite, isRead] using h
      simpa [applyOp] using ih h2 s

/-- C8: in every execution history of the frame buffer, a read before
any write returns none; after a write of frame `f` followed by no
further write, every read returns exactly that frame, serialized; and a
write fully replaces the slot contents regardless of what was there. -/
theorem frame_buffer_semantics (encode : ℕ → List ℕ)
    (ops pre post : List BufOp) (f : ℕ) (s : Option ℕ) :
    (noWrite ops = true →
      runBuf ops = none ∧ get_frame encode (runBuf ops) = none) ∧
    (noWrite post = true →
      runBuf (pre ++ BufOp.write f :: post) = some f ∧
      get_frame encode (runBuf (pre ++ BufOp.write f :: post)) =
        some (encode f)) ∧
    applyOp s (BufOp.write f) = some f := by
  refine ⟨fun h => ?_, fun h => ?_, rfl⟩
  · have h1 : runBuf ops = none := foldl_noWrite ops h none
    exact ⟨h1, by rw [h1]; rfl⟩
  · have h1 : runBuf (pre ++ BufOp.write f :: post) = some f := by
      unfold runBuf
      rw [List.foldl_append, List.foldl_cons]
      exact foldl_noWrite post h _
    exact ⟨h1, by rw [h1]; rfl⟩

theorem frame_buffer_semantics_w :
    runBuf [BufOp.read] = none ∧
    get_frame (fun n => [n])
      (runBuf ([BufOp.read] ++ BufOp.write 5 :: [BufOp.read])) = some [5] ∧
    applyOp (some 3) (BufOp.write 5) = some 5 :=
  ⟨((frame_buffer_semantics (fun n => [n]) [BufOp.read] [] [] 0 none).1
      (by decide)).1,
   ((frame_buffer_semantics (fun n => [n]) [] [BufOp.read] [BufOp.read] 5
      none).2.1 (by decide)).2,
   (frame_buffer_semantics (fun n => [n]) [] [] [] 5 (some 3)).2.2⟩
